import Mathlib

set_option maxRecDepth 100000

/-!
Shallow embedding of the forge-bot mention-processing pipeline (src/app.ts).

Text is modelled as `List Char`; timestamps as `Int` (milliseconds); the
JavaScript string operations used by the source (`toLowerCase`, `trim`,
`replace` with a string pattern (first occurrence), `split("|")`,
`startsWith`, `includes`) are given as executable functions over `List Char`.
External effects (the notification transport, the reply transport, the
generation provider) are modelled by explicit oracles, and each stateful
source function becomes a pure function from state to state.
-/

/- ## JS string primitives over List Char -/

def lowerL (s : List Char) : List Char := s.map Char.toLower

def isWsChar (c : Char) : Bool := c = ' ' || c = '\t' || c = '\r' || c = '\n'

def trimL (s : List Char) : List Char :=
  ((s.dropWhile isWsChar).reverse.dropWhile isWsChar).reverse

/-- JS `s.replace(pat, rep)` with a string pattern: replaces the first
occurrence only (the source never uses an empty pattern). -/
def replaceFirst : List Char → List Char → List Char → List Char
  | [], _, _ => []
  | c :: cs, pat, rep =>
    if pat.isPrefixOf (c :: cs) then rep ++ (c :: cs).drop pat.length
    else c :: replaceFirst cs pat rep

/-- JS `s.split(sep)` for a single-character separator: always returns a
non-empty list of (possibly empty) segments. -/
def splitOnChar (sep : Char) : List Char → List (List Char)
  | [] => [[]]
  | c :: cs =>
    match splitOnChar sep cs with
    | [] => [[c]]
    | p :: ps => if c = sep then [] :: p :: ps else (c :: p) :: ps

/-- JS `hay.includes(pat)`: substring containment. -/
def containsSub : List Char → List Char → Bool
  | [], pat => pat.isEmpty
  | c :: cs, pat => pat.isPrefixOf (c :: cs) || containsSub cs pat

/- ## Constants (src/app.ts lines 11-17) -/

def RATE_LIMIT_WINDOW_MS : Int := 1000

/- ## BotState and the durable state store (src/app.ts lines 32-115) -/

structure BotState where
  lastCheckedTime : Int
  processedCasts : List (List Char)
  lastGeminiCall : Option Int
  geminiRequestQueue : List Int
  maintenanceMode : Bool
deriving DecidableEq

def defaultState (now : Int) : BotState :=
  { lastCheckedTime := now
    processedCasts := []
    lastGeminiCall := none
    geminiRequestQueue := []
    maintenanceMode := false }

/-- The `processedCasts` bounding rule of `saveState`:
`length > 1000 ? slice(-1000) : unchanged`. -/
def trimCasts (l : List (List Char)) : List (List Char) :=
  if l.length > 1000 then l.drop (l.length - 1000) else l

/-- `saveState` (lines 96-115): purges rate-limit queue entries outside the
window, bounds `processedCasts`, stamps `lastCheckedTime`.  The file writes
themselves are outside the model; on a write failure the code only logs, and
the in-memory state shown here is the one it keeps. -/
def saveState (st : BotState) (now : Int) : BotState :=
  { st with
    geminiRequestQueue := st.geminiRequestQueue.filter
      (fun ts => now - ts < RATE_LIMIT_WINDOW_MS)
    processedCasts := trimCasts st.processedCasts
    lastCheckedTime := now }

/- ## loadState (src/app.ts lines 67-92) -/

/-- A JSON field that should hold an array: it can be missing from the parsed
object, present with a non-array value, or an actual array. -/
inductive JsonArr (α : Type) where
  | missingField
  | nonArray
  | arr (xs : List α)
deriving DecidableEq

/-- The shape of a successfully parsed state file, before schema checks. -/
structure ParsedState where
  processedCasts : JsonArr (List Char)
  geminiRequestQueue : JsonArr Int
  lastCheckedTime : Option Int
  lastGeminiCall : Option Int
  maintenanceMode : Option Bool
deriving DecidableEq

/-- The three conditions the state file can be in: absent (`existsSync`
false), unreadable or unparseable (`readFileSync`/`JSON.parse` throws, caught
by the surrounding try), or parsed. -/
inductive StateFile where
  | absent
  | corrupt
  | parsed (p : ParsedState)
deriving DecidableEq

/-- `loadState`: total by construction, mirroring the code's early return on a
missing file, the catch-all around parsing, and the `Array.isArray` checks
that substitute defaults for non-array sequence fields.  Spread semantics
(`{...defaultState, ...parsed}`) keep a default only when the parsed object
lacks the field. -/
def loadState (f : StateFile) (now : Int) : BotState :=
  match f with
  | .absent => defaultState now
  | .corrupt => defaultState now
  | .parsed p =>
    { lastCheckedTime := p.lastCheckedTime.getD now
      processedCasts := match p.processedCasts with | .arr xs => xs | _ => []
      lastGeminiCall := p.lastGeminiCall
      geminiRequestQueue := match p.geminiRequestQueue with | .arr xs => xs | _ => []
      maintenanceMode := p.maintenanceMode.getD false }

/- ## Fallback template, validator, filename sanitizer (lines 118-155) -/

structure TemplateParams where
  name : Option (List Char)
  description : Option (List Char)
  purpose : Option (List Char)

/-- JS `params.field?.trim() || default`: a missing field or a field that is
blank after trimming falls back to the default. -/
def orDefault (x : Option (List Char)) (d : List Char) : List Char :=
  match x with
  | none => d
  | some s => if trimL s = [] then d else trimL s

def fallbackSeg1 : List Char :=
  "<!DOCTYPE html>\n<html lang=\"en\">\n<head>\n  <meta charset=\"UTF-8\">\n  <meta name=\"viewport\" content=\"width=device-width, initial-scale=1.0\">\n  <title>".data

def fallbackSeg2 : List Char :=
  "</title>\n  <style>\n    body \x7b font-family: Arial, sans-serif; line-height: 1.6; margin: 0; padding: 20px; \x7d\n    .container \x7b max-width: 800px; margin: 0 auto; \x7d\n    h1 \x7b color: #333; \x7d\n    .cta \x7b background: #007bff; color: white; padding: 10px 20px; text-decoration: none; border-radius: 5px; display: inline-block; \x7d\n  </style>\n</head>\n<body>\n  <div class=\"container\">\n    <h1>".data

def fallbackSeg3 : List Char := "</h1>\n    <p>".data

def fallbackSeg4 : List Char := "</p>\n    <a href=\"#\" class=\"cta\">".data

def fallbackSeg5 : List Char := "</a>\n  </div>\n</body>\n</html>".data

/-- `getFallbackTemplate` (lines 118-146): the template literal with the three
(defaulted) parameters interpolated. -/
def getFallbackTemplate (params : TemplateParams) : List Char :=
  let nm := orDefault params.name "Your Landing Page".data
  let ds := orDefault params.description "A premium solution for your needs".data
  let pp := orDefault params.purpose "Get Started".data
  fallbackSeg1 ++ nm ++ fallbackSeg2 ++ nm ++ fallbackSeg3 ++ ds ++ fallbackSeg4 ++ pp ++ fallbackSeg5

/-- The `requiredTags` array of `validateLandingPage` (line 149). -/
def requiredTags : List (List Char) :=
  ["<!DOCTYPE html>".data, "<html".data, "<head".data, "<body".data, "<title".data]

/-- `validateLandingPage` (lines 148-151): every required tag must occur as a
substring. -/
def validateLandingPage (html : List Char) : Bool :=
  requiredTags.all (fun tag => containsSub html tag)

/-- Modelled from the spec's words, for comparison with the code's
`validateLandingPage`: "document-type declaration, the opening and the
closing document tag, and the head and body markers". -/
def claimRequiredMarkers : List (List Char) :=
  ["<!DOCTYPE html>".data, "<html".data, "</html>".data, "<head".data, "<body".data]

/-- The validator the claim describes: accept exactly when every marker of
`claimRequiredMarkers` occurs. -/
def claimValidate (html : List Char) : Bool :=
  claimRequiredMarkers.all (fun tag => containsSub html tag)

/-- The character class `[a-z0-9_-]` of `sanitizeFilename`, case-insensitive
because of the `i` regex flag. -/
def isFnameChar (c : Char) : Prop :=
  ('a' ≤ c ∧ c ≤ 'z') ∨ ('A' ≤ c ∧ c ≤ 'Z') ∨ ('0' ≤ c ∧ c ≤ '9') ∨ c = '_' ∨ c = '-'

instance (c : Char) : Decidable (isFnameChar c) := by
  unfold isFnameChar
  infer_instance

/-- `sanitizeFilename` (lines 153-155): `/[^a-z0-9_-]/gi` replaced by an
underscore (the `g` flag: every occurrence), then lower-cased. -/
def sanitizeFilename (s : List Char) : List Char :=
  (s.map (fun c => if isFnameChar c then c else '_')).map Char.toLower

/- ## Artifact generator (lines 157-207) and saveLandingPage (209-230) -/

/-- A behavior of the external generation provider for one call: it either
throws (any error, including provider rate limiting and timeouts) or returns
some text. -/
inductive Provider where
  | throws
  | returns (html : List Char)
deriving DecidableEq

structure LandingPageParams where
  name : List Char
  description : List Char
  purpose : List Char
deriving DecidableEq

structure GenResult where
  html : List Char
  st : BotState
  grantTime : Int
deriving DecidableEq

/-- `generateLandingPage` (lines 157-207).  The queue is purged at call time
`now`; if a granted timestamp remains, the caller suspends for
`delay = W - (now - queue[0])`, so the grant happens at `g = now + delay`
(and at `now` when the purged queue is empty).  The grant timestamp is pushed
and `saveState` runs (at time `g`) before the provider is invoked.  A thrown
provider error or a validation failure yields the fallback template; the
function never raises. -/
def generateLandingPage (st : BotState) (now : Int) (prov : Provider)
    (p : LandingPageParams) : GenResult :=
  let purged := st.geminiRequestQueue.filter
    (fun ts => now - ts < RATE_LIMIT_WINDOW_MS)
  let g : Int :=
    match purged with
    | [] => now
    | t0 :: _ => now + (RATE_LIMIT_WINDOW_MS - (now - t0))
  let st2 := saveState
    { st with geminiRequestQueue := purged ++ [g], lastGeminiCall := some g } g
  let fb := getFallbackTemplate ⟨some p.name, some p.description, some p.purpose⟩
  match prov with
  | .throws => ⟨fb, st2, g⟩
  | .returns html =>
    if validateLandingPage html then ⟨html, st2, g⟩ else ⟨fb, st2, g⟩

/-- N generation requests submitted at time 0 and served sequentially:
request `i + 1` enters the generator at the instant request `i` was granted
(the idealization of the spec's sequential-submission scenario). -/
def genSeq (prov : Provider) (p : LandingPageParams) : Nat → GenResult
  | 0 => generateLandingPage (defaultState 0) 0 prov p
  | i + 1 =>
    let r := genSeq prov p i
    generateLandingPage r.st r.grantTime prov p

/-- `HOSTING_DOMAIN.replace(/\/+$/, "")`: strip trailing slashes. -/
def cleanDomain (d : List Char) : List Char :=
  (d.reverse.dropWhile (fun c => c = '/')).reverse

/-- The filename built by `saveLandingPage` (lines 209-211):
`sanitizeFilename("landing_<fid>_<now>.html")`. -/
def saveLandingFilename (authorFid now : Nat) : List Char :=
  sanitizeFilename ("landing_".data ++ (toString authorFid).data ++ "_".data
    ++ (toString now).data ++ ".html".data)

/-- The URL returned by `saveLandingPage` when the file write succeeds
(line 225): `cleanDomain + "/landing-pages/" + filename`. -/
def saveLandingUrl (domain : List Char) (authorFid now : Nat) : List Char :=
  cleanDomain domain ++ "/landing-pages/".data ++ saveLandingFilename authorFid now

/- ## Command surface and notification pipeline (lines 232-322) -/

structure Cast where
  hash : List Char
  text : List Char
deriving DecidableEq

/-- A fetched notification; `cast = none` models a notification lacking a
usable `cast` object (the `!notification?.cast?.hash` guard also treats an
empty hash as unusable, which is kept separate below). -/
structure Notification where
  cast : Option Cast
deriving DecidableEq

/-- What a thrown transport error signals. -/
inductive ErrKind where
  | rateLimit
  | other
deriving DecidableEq

/-- The outcome of one `publishCast` call: it resolves, or throws. -/
inductive PubResult where
  | ok
  | err (k : ErrKind)
deriving DecidableEq

/-- The environment of one notification's handling: the wall-clock time, the
outcome of the (single) reply publish on the taken dispatch path, and the
provider behavior if the generate path runs. -/
structure StepOracle where
  now : Int
  pub : PubResult
  prov : Provider
deriving DecidableEq

inductive ReplyKind where
  | maintenance
  | usage
  | success
  | help
  | apology
deriving DecidableEq

/-- One reply publish attempt: parent cast hash, the kind of message, and
whether the publish resolved. -/
structure Attempt where
  parent : List Char
  kind : ReplyKind
  sent : Bool
deriving DecidableEq

/-- Line 305: `cast.text.toLowerCase().replace("@" + bot, "").trim()`. -/
def cleanText (bot text : List Char) : List Char :=
  trimL (replaceFirst (lowerL text) ('@' :: lowerL bot) [])

/-- Lines 261-265: lower-case, strip the first occurrence of
`"@<bot> landing"`, trim, split on the pipe, trim each part. -/
def landingParts (bot text : List Char) : List (List Char) :=
  (splitOnChar '|'
    (trimL (replaceFirst (lowerL text) ('@' :: (lowerL bot ++ " landing".data)) []))).map
    trimL

/-- The dispatch decision for one notification. -/
inductive BotAction where
  | maint
  | usage
  | genReq (name description purpose : List Char)
  | helpReply
  | skip
deriving DecidableEq

/-- `handleLandingRequest` up to its first publish (lines 251-276):
maintenance short-circuit, then `parts.length < 3` (parts counted whether
empty or not) decides usage vs generate; the generate path uses exactly the
first three parts. -/
def handleLandingAction (maintMode : Bool) (bot text : List Char) : BotAction :=
  if maintMode then .maint
  else
    match landingParts bot text with
    | a :: b :: c :: _ => .genReq a b c
    | _ => .usage

/-- Lines 303-311: route on the cleaned text — `startsWith("landing")`, else
the `/help|commands/` substring test, else nothing. -/
def classify (maintMode : Bool) (bot text : List Char) : BotAction :=
  let ct := cleanText bot text
  if "landing".data.isPrefixOf ct then handleLandingAction maintMode bot text
  else if containsSub ct "help".data || containsSub ct "commands".data then .helpReply
  else .skip

/-- Lines 313-314: `botState.processedCasts.push(cast.hash); saveState()`. -/
def pushAndSave (st : BotState) (h : List Char) (now : Int) : BotState :=
  saveState { st with processedCasts := st.processedCasts ++ [h] } now

def isSent (r : PubResult) : Bool :=
  match r with
  | .ok => true
  | .err _ => false

/-- A dispatch path that ends in one `publishCast`: on success the hash is
pushed and the state saved (lines 313-314); a throw propagates to the
per-notification catch (lines 315-317), which only logs, so neither the push
nor the save happens. -/
def pubOutcome (st : BotState) (h : List Char) (now : Int) (pub : PubResult)
    (kind : ReplyKind) : BotState × List Attempt :=
  match pub with
  | .ok => (pushAndSave st h now, [⟨h, kind, true⟩])
  | .err _ => (st, [⟨h, kind, false⟩])

/-- The body of the per-notification loop (lines 297-318) for a notification
with a present cast: skip on an empty or already-processed hash, otherwise
dispatch.  The unrecognized path publishes nothing and still records the
hash; the generate path first runs `generateLandingPage` (which never throws
and already mutated and saved the queue) and then publishes the link reply. -/
def processCast (bot : List Char) (o : StepOracle) (st : BotState) (c : Cast) :
    BotState × List Attempt :=
  if c.hash = [] ∨ c.hash ∈ st.processedCasts then (st, [])
  else
    match classify st.maintenanceMode bot c.text with
    | .skip => (pushAndSave st c.hash o.now, [])
    | .maint => pubOutcome st c.hash o.now o.pub .maintenance
    | .usage => pubOutcome st c.hash o.now o.pub .usage
    | .helpReply => pubOutcome st c.hash o.now o.pub .help
    | .genReq nm ds pp =>
      pubOutcome (generateLandingPage st o.now o.prov ⟨nm, ds, pp⟩).st c.hash
        (generateLandingPage st o.now o.prov ⟨nm, ds, pp⟩).grantTime o.pub .success

def processNotif (bot : List Char) (o : StepOracle) (st : BotState)
    (n : Notification) : BotState × List Attempt :=
  match n.cast with
  | none => (st, [])
  | some c => processCast bot o st c

def defaultOracle : StepOracle := ⟨0, .ok, .throws⟩

/-- One `checkMentionsAndReply` cycle over an already-fetched batch
(lines 297-318): strictly sequential, each notification's caught failure
isolated, the batch never aborted by one notification. -/
def runCycle (bot : List Char) (os : List StepOracle) (st : BotState) :
    List Notification → BotState × List Attempt
  | [] => (st, [])
  | n :: rest =>
    let r1 := processNotif bot (os.headD defaultOracle) st n
    let r2 := runCycle bot os.tail r1.1 rest
    (r2.1, r1.2 ++ r2.2)

/-- Number of successfully published replies whose parent is `x`. -/
def pubCountFor (x : List Char) (as : List Attempt) : Nat :=
  as.countP (fun a => a.sent && a.parent == x)

/-- The notification identifiers appearing in a fetched batch. -/
def batchHashes (b : List Notification) : List (List Char) :=
  b.filterMap (fun n => n.cast.map Cast.hash)

/- ## Generic helper lemmas -/

/-- The last `k` entries of a list. -/
def lastN {α : Type} (k : Nat) (l : List α) : List α := l.drop (l.length - k)

theorem mem_lastN_mono {α : Type} {x : α} {l : List α} {k m : Nat}
    (hk : k ≤ m) (h : x ∈ lastN k l) : x ∈ lastN m l := by
  unfold lastN at h ⊢
  have e : l.length - k = (l.length - m) + ((l.length - k) - (l.length - m)) := by omega
  rw [e, ← List.drop_drop] at h
  exact List.drop_subset _ _ h

theorem mem_of_mem_lastN {α : Type} {x : α} {l : List α} {k : Nat}
    (h : x ∈ lastN k l) : x ∈ l :=
  List.drop_subset _ _ h

theorem mem_lastN_append {α : Type} {x : α} {l : List α} {k : Nat}
    (h : x ∈ lastN k l) (y : α) : x ∈ lastN (k + 1) (l ++ [y]) := by
  unfold lastN at h ⊢
  have e : (l ++ [y]).length - (k + 1) = l.length - k := by
    simp only [List.length_append, List.length_cons, List.length_nil]
    omega
  rw [e, List.drop_append_eq_append_drop]
  exact List.mem_append_left _ h

theorem mem_lastN_self_append {α : Type} (l : List α) (y : α) :
    y ∈ lastN 1 (l ++ [y]) := by
  unfold lastN
  have e : (l ++ [y]).length - 1 = l.length := by
    simp only [List.length_append, List.length_cons, List.length_nil]
    omega
  rw [e, List.drop_append_eq_append_drop, List.drop_length]
  simp

theorem mem_lastN_trim {x : List Char} {l : List (List Char)} {k : Nat}
    (hk : k ≤ 1000) (h : x ∈ lastN k l) : x ∈ lastN k (trimCasts l) := by
  unfold trimCasts
  split
  · next hlen =>
    unfold lastN at h ⊢
    rw [List.length_drop, List.drop_drop]
    have e : l.length - 1000 + (l.length - (l.length - 1000) - k) = l.length - k := by
      omega
    rw [e]
    exact h
  · exact h

theorem trimCasts_subset (l : List (List Char)) : trimCasts l ⊆ l := by
  unfold trimCasts
  split
  · exact List.drop_subset _ _
  · exact fun _ h => h

theorem trimCasts_length (l : List (List Char)) : (trimCasts l).length ≤ 1000 := by
  unfold trimCasts
  split
  · next hlen => rw [List.length_drop]; omega
  · next hlen => omega

theorem trimCasts_suffix (l : List (List Char)) : trimCasts l <:+ l := by
  unfold trimCasts
  split
  · exact List.drop_suffix _ _
  · exact List.suffix_refl l

theorem isPrefixOf_append_of {p l : List Char} (r : List Char)
    (h : p.isPrefixOf l = true) : p.isPrefixOf (l ++ r) = true := by
  induction p generalizing l with
  | nil => simp [List.isPrefixOf]
  | cons a as ih =>
    cases l with
    | nil => simp [List.isPrefixOf] at h
    | cons b bs =>
      simp only [List.cons_append, List.isPrefixOf, Bool.and_eq_true] at h ⊢
      exact ⟨h.1, ih h.2⟩

theorem containsSub_nil_pat (l : List Char) : containsSub l [] = true := by
  cases l <;> simp [containsSub, List.isPrefixOf]

theorem containsSub_append_left {a : List Char} (b : List Char) {p : List Char}
    (h : containsSub a p = true) : containsSub (a ++ b) p = true := by
  induction a with
  | nil =>
    simp only [containsSub] at h
    cases p with
    | nil => exact containsSub_nil_pat b
    | cons _ _ => simp [List.isEmpty] at h
  | cons c cs ih =>
    simp only [containsSub, Bool.or_eq_true] at h
    rcases h with h | h
    · simp only [List.cons_append, containsSub, Bool.or_eq_true]
      exact Or.inl (isPrefixOf_append_of b h)
    · simp only [List.cons_append, containsSub, Bool.or_eq_true]
      exact Or.inr (ih h)

theorem containsSub_append_right (a : List Char) {b p : List Char}
    (h : containsSub b p = true) : containsSub (a ++ b) p = true := by
  induction a with
  | nil => simpa using h
  | cons c cs ih =>
    simp only [List.cons_append, containsSub, Bool.or_eq_true]
    exact Or.inr ih

/- ## Char facts for the sanitizer -/

theorem char_toNat_ofNat_small {m : Nat} (h : m < 55296) :
    (Char.ofNat m).toNat = m := by
  rw [Char.ofNat, dif_pos (Or.inl (by omega))]
  simp [Char.ofNatAux, Char.toNat, UInt32.toNat]

theorem toLower_eq_self_of_not_upper {c : Char}
    (h : ¬ (65 ≤ c.toNat ∧ c.toNat ≤ 90)) : c.toLower = c := by
  rw [Char.toLower, if_neg]
  exact fun hx => h ⟨hx.1, hx.2⟩

theorem toLower_toNat_of_upper {c : Char} (h65 : 65 ≤ c.toNat)
    (h90 : c.toNat ≤ 90) : (Char.toLower c).toNat = c.toNat + 32 := by
  rw [Char.toLower, if_pos ⟨h65, h90⟩, char_toNat_ofNat_small (by omega)]

/- ## Step lemmas about one notification's handling -/

theorem generate_processedCasts (st : BotState) (now : Int) (prov : Provider)
    (p : LandingPageParams) :
    (generateLandingPage st now prov p).st.processedCasts = trimCasts st.processedCasts := by
  unfold generateLandingPage saveState
  cases prov with
  | throws => rfl
  | returns h =>
    dsimp only
    split <;> rfl

theorem pushAndSave_persist {st : BotState} {h : List Char} {now : Int}
    {x : List Char} {k : Nat} (hk : k + 1 ≤ 1000)
    (hx : x ∈ lastN k st.processedCasts) :
    x ∈ lastN (k + 1) (pushAndSave st h now).processedCasts := by
  unfold pushAndSave saveState
  dsimp only
  exact mem_lastN_trim hk (mem_lastN_append hx h)

theorem pushAndSave_self {st : BotState} (h : List Char) (now : Int) :
    h ∈ lastN 1 (pushAndSave st h now).processedCasts := by
  unfold pushAndSave saveState
  dsimp only
  exact mem_lastN_trim (by omega) (mem_lastN_self_append st.processedCasts h)

theorem pubOutcome_snd (st : BotState) (h : List Char) (now : Int)
    (pub : PubResult) (kind : ReplyKind) :
    (pubOutcome st h now pub kind).2 = [⟨h, kind, isSent pub⟩] := by
  cases pub <;> rfl

/-- The complete shape of one cast's handling: the pre-publish state is the
input state up to (at most) a `saveState` trim of `processedCasts`, and the
step either publishes nothing (skipped, or the silent unrecognized path which
still pushes the hash), or attempts exactly one non-apology reply whose
parent is the cast's hash, pushing the hash exactly when the publish
resolved. -/
theorem processCast_shape (bot : List Char) (o : StepOracle) (st : BotState)
    (c : Cast) :
    ∃ stPre now2,
      (stPre.processedCasts = st.processedCasts ∨
        stPre.processedCasts = trimCasts st.processedCasts) ∧
      (((processCast bot o st c).2 = [] ∧
          ((processCast bot o st c).1 = stPre ∨
            (processCast bot o st c).1 = pushAndSave stPre c.hash now2)) ∨
        (∃ kind, kind ≠ ReplyKind.apology ∧
          (processCast bot o st c).2 = [⟨c.hash, kind, isSent o.pub⟩] ∧
          ((o.pub = PubResult.ok ∧
              (processCast bot o st c).1 = pushAndSave stPre c.hash now2) ∨
            (isSent o.pub = false ∧ (processCast bot o st c).1 = stPre)))) := by
  unfold processCast
  split
  · exact ⟨st, 0, Or.inl rfl, Or.inl ⟨rfl, Or.inl rfl⟩⟩
  · cases hcl : classify st.maintenanceMode bot c.text with
    | skip => exact ⟨st, o.now, Or.inl rfl, Or.inl ⟨rfl, Or.inr rfl⟩⟩
    | maint =>
      cases hp : o.pub with
      | ok =>
        exact ⟨st, o.now, Or.inl rfl,
          Or.inr ⟨.maintenance, by decide, rfl, Or.inl ⟨rfl, rfl⟩⟩⟩
      | err k =>
        exact ⟨st, o.now, Or.inl rfl,
          Or.inr ⟨.maintenance, by decide, rfl, Or.inr ⟨rfl, rfl⟩⟩⟩
    | usage =>
      cases hp : o.pub with
      | ok =>
        exact ⟨st, o.now, Or.inl rfl,
          Or.inr ⟨.usage, by decide, rfl, Or.inl ⟨rfl, rfl⟩⟩⟩
      | err k =>
        exact ⟨st, o.now, Or.inl rfl,
          Or.inr ⟨.usage, by decide, rfl, Or.inr ⟨rfl, rfl⟩⟩⟩
    | helpReply =>
      cases hp : o.pub with
      | ok =>
        exact ⟨st, o.now, Or.inl rfl,
          Or.inr ⟨.help, by decide, rfl, Or.inl ⟨rfl, rfl⟩⟩⟩
      | err k =>
        exact ⟨st, o.now, Or.inl rfl,
          Or.inr ⟨.help, by decide, rfl, Or.inr ⟨rfl, rfl⟩⟩⟩
    | genReq nm ds pp =>
      refine ⟨(generateLandingPage st o.now o.prov ⟨nm, ds, pp⟩).st,
        (generateLandingPage st o.now o.prov ⟨nm, ds, pp⟩).grantTime,
        Or.inr (generate_processedCasts st o.now o.prov ⟨nm, ds, pp⟩), ?_⟩
      cases hp : o.pub with
      | ok =>
        exact Or.inr ⟨.success, by decide, rfl, Or.inl ⟨rfl, rfl⟩⟩
      | err k =>
        exact Or.inr ⟨.success, by decide, rfl, Or.inr ⟨rfl, rfl⟩⟩

theorem processCast_persist {bot : List Char} {o : StepOracle} {st : BotState}
    {c : Cast} {x : List Char} {k : Nat} (hk : k + 1 ≤ 1000)
    (h : x ∈ lastN k st.processedCasts) :
    x ∈ lastN (k + 1) (processCast bot o st c).1.processedCasts := by
  obtain ⟨stPre, now2, hpre, hcases⟩ := processCast_shape bot o st c
  have hx : x ∈ lastN k stPre.processedCasts := by
    rcases hpre with hpre | hpre
    · rw [hpre]; exact h
    · rw [hpre]; exact mem_lastN_trim (by omega) h
  rcases hcases with ⟨_, hst | hst⟩ | ⟨kind, _, _, ⟨_, hst⟩ | ⟨_, hst⟩⟩
  · rw [hst]; exact mem_lastN_mono (by omega) hx
  · rw [hst]; exact pushAndSave_persist hk hx
  · rw [hst]; exact pushAndSave_persist hk hx
  · rw [hst]; exact mem_lastN_mono (by omega) hx

theorem processNotif_persist {bot : List Char} {o : StepOracle} {st : BotState}
    {n : Notification} {x : List Char} {k : Nat} (hk : k + 1 ≤ 1000)
    (h : x ∈ lastN k st.processedCasts) :
    x ∈ lastN (k + 1) (processNotif bot o st n).1.processedCasts := by
  unfold processNotif
  cases n.cast with
  | none => exact mem_lastN_mono (by omega) h
  | some c => exact processCast_persist hk h

theorem pubCountFor_append (x : List Char) (a b : List Attempt) :
    pubCountFor x (a ++ b) = pubCountFor x a + pubCountFor x b :=
  List.countP_append _ a b

theorem pubCountFor_le_length (x : List Char) (l : List Attempt) :
    pubCountFor x l ≤ l.length :=
  List.countP_le_length _

theorem processCast_count_le_one (x bot : List Char) (o : StepOracle)
    (st : BotState) (c : Cast) :
    pubCountFor x (processCast bot o st c).2 ≤ 1 := by
  obtain ⟨stPre, now2, hpre, hcases⟩ := processCast_shape bot o st c
  rcases hcases with ⟨hatt, _⟩ | ⟨kind, _, hatt, _⟩ <;> rw [hatt]
  · exact Nat.le_of_lt_succ (by simp [pubCountFor])
  · exact le_trans (pubCountFor_le_length x _) (by simp)

theorem processNotif_count_le_one (x bot : List Char) (o : StepOracle)
    (st : BotState) (n : Notification) :
    pubCountFor x (processNotif bot o st n).2 ≤ 1 := by
  unfold processNotif
  cases n.cast with
  | none => simp [pubCountFor]
  | some c => exact processCast_count_le_one x bot o st c

theorem processCast_count_zero_of_mem {bot : List Char} {o : StepOracle}
    {st : BotState} {c : Cast} {x : List Char} (hx : x ∈ st.processedCasts) :
    pubCountFor x (processCast bot o st c).2 = 0 := by
  by_cases hh : c.hash = x
  · unfold processCast
    rw [if_pos (Or.inr (hh ▸ hx))]
    rfl
  · obtain ⟨stPre, now2, hpre, hcases⟩ := processCast_shape bot o st c
    rcases hcases with ⟨hatt, _⟩ | ⟨kind, _, hatt, _⟩ <;> rw [hatt]
    · rfl
    · have hb : (c.hash == x) = false := beq_eq_false_iff_ne.mpr hh
      simp [pubCountFor, List.countP_cons, hb]

theorem processNotif_count_zero_of_mem {bot : List Char} {o : StepOracle}
    {st : BotState} {n : Notification} {x : List Char}
    (hx : x ∈ st.processedCasts) :
    pubCountFor x (processNotif bot o st n).2 = 0 := by
  unfold processNotif
  cases n.cast with
  | none => rfl
  | some c => exact processCast_count_zero_of_mem hx

theorem processNotif_sent {bot : List Char} {o : StepOracle} {st : BotState}
    {n : Notification} {x : List Char}
    (h1 : 1 ≤ pubCountFor x (processNotif bot o st n).2) :
    x ∈ lastN 1 (processNotif bot o st n).1.processedCasts := by
  unfold processNotif at h1 ⊢
  cases hc : n.cast with
  | none => rw [hc] at h1; simp [pubCountFor] at h1
  | some c =>
    rw [hc] at h1
    dsimp only at h1 ⊢
    obtain ⟨stPre, now2, hpre, hcases⟩ := processCast_shape bot o st c
    rcases hcases with ⟨hatt, _⟩ | ⟨kind, _, hatt, ⟨_, hst⟩ | ⟨hsent, _⟩⟩
    · rw [hatt] at h1; simp [pubCountFor] at h1
    · rw [hst]
      have hx : c.hash = x := by
        rw [hatt] at h1
        by_contra hne
        have hb : (c.hash == x) = false := beq_eq_false_iff_ne.mpr hne
        simp [pubCountFor, List.countP_cons, hb] at h1
      rw [← hx]
      exact pushAndSave_self c.hash now2
    · rw [hatt] at h1
      simp [pubCountFor, List.countP_cons, hsent] at h1

/- ## Cycle lemmas -/

/-- Once `x` sits among the last `k` recorded identifiers and at most
`1000 - k` further notifications are processed, a cycle never publishes a new
reply for `x`, and `x` stays within the recorded window. -/
theorem runCycle_no_new (bot x : List Char) (batch : List Notification)
    (os : List StepOracle) (st : BotState) (k : Nat)
    (hk : k + batch.length ≤ 1000) (h : x ∈ lastN k st.processedCasts) :
    pubCountFor x (runCycle bot os st batch).2 = 0 ∧
      x ∈ lastN (k + batch.length) (runCycle bot os st batch).1.processedCasts := by
  induction batch generalizing os st k with
  | nil => simpa [runCycle, pubCountFor] using h
  | cons n rest ih =>
    have hstep0 : pubCountFor x (processNotif bot (os.headD defaultOracle) st n).2 = 0 :=
      processNotif_count_zero_of_mem (mem_of_mem_lastN h)
    have hklen : k + (n :: rest).length = (k + 1) + rest.length := by
      simp only [List.length_cons]
      omega
    have hpers : x ∈ lastN (k + 1)
        (processNotif bot (os.headD defaultOracle) st n).1.processedCasts :=
      processNotif_persist (by simp only [List.length_cons] at hk; omega) h
    have hrest := ih os.tail (processNotif bot (os.headD defaultOracle) st n).1
      (k + 1) (by simp only [List.length_cons] at hk; omega) hpers
    constructor
    · simp only [runCycle, pubCountFor_append, hstep0, hrest.1]
    · rw [hklen]
      simpa only [runCycle] using hrest.2

theorem runCycle_cons (bot : List Char) (os : List StepOracle) (st : BotState)
    (n : Notification) (rest : List Notification) :
    runCycle bot os st (n :: rest) =
      ((runCycle bot os.tail (processNotif bot (os.headD defaultOracle) st n).1 rest).1,
        (processNotif bot (os.headD defaultOracle) st n).2 ++
          (runCycle bot os.tail (processNotif bot (os.headD defaultOracle) st n).1 rest).2) :=
  rfl

/-- In one cycle over a batch of at most 1000 notifications, at most one
reply is published for `x`; and when one was, `x` sits among the last
`batch.length` recorded identifiers afterwards. -/
theorem runCycle_count_le_one (bot x : List Char) (batch : List Notification)
    (os : List StepOracle) (st : BotState) (hb : batch.length ≤ 1000) :
    pubCountFor x (runCycle bot os st batch).2 ≤ 1 ∧
      (1 ≤ pubCountFor x (runCycle bot os st batch).2 →
        ∃ k, 1 ≤ k ∧ k ≤ batch.length ∧
          x ∈ lastN k (runCycle bot os st batch).1.processedCasts) := by
  induction batch generalizing os st with
  | nil => simp [runCycle, pubCountFor]
  | cons n rest ih =>
    have hb' : rest.length ≤ 1000 := by
      simp only [List.length_cons] at hb
      omega
    rw [runCycle_cons]
    by_cases h1 : 1 ≤ pubCountFor x (processNotif bot (os.headD defaultOracle) st n).2
    · have hx1 : x ∈ lastN 1
          (processNotif bot (os.headD defaultOracle) st n).1.processedCasts :=
        processNotif_sent h1
      have hD := runCycle_no_new bot x rest os.tail
        (processNotif bot (os.headD defaultOracle) st n).1 1
        (by simp only [List.length_cons] at hb; omega) hx1
      have hle : pubCountFor x (processNotif bot (os.headD defaultOracle) st n).2 ≤ 1 :=
        processNotif_count_le_one x bot _ st n
      constructor
      · rw [pubCountFor_append, hD.1]
        omega
      · intro _
        exact ⟨1 + rest.length, by omega, by simp only [List.length_cons]; omega, hD.2⟩
    · have h0 : pubCountFor x (processNotif bot (os.headD defaultOracle) st n).2 = 0 := by
        omega
      have hrest := ih os.tail (processNotif bot (os.headD defaultOracle) st n).1 hb'
      constructor
      · rw [pubCountFor_append, h0, Nat.zero_add]
        exact hrest.1
      · intro hge
        rw [pubCountFor_append, h0, Nat.zero_add] at hge
        obtain ⟨k, hk1, hk2, hkmem⟩ := hrest.2 hge
        exact ⟨k, hk1, by simp only [List.length_cons]; omega, hkmem⟩

/- ## Rate limiter facts (the admission logic inside generateLandingPage) -/

theorem generate_grantTime (st : BotState) (now : Int) (prov : Provider)
    (p : LandingPageParams) :
    (generateLandingPage st now prov p).grantTime =
      match st.geminiRequestQueue.filter (fun ts => now - ts < RATE_LIMIT_WINDOW_MS) with
      | [] => now
      | t0 :: _ => now + (RATE_LIMIT_WINDOW_MS - (now - t0)) := by
  unfold generateLandingPage
  cases prov with
  | throws => rfl
  | returns h =>
    dsimp only
    split <;> rfl

theorem generate_queue (st : BotState) (now : Int) (prov : Provider)
    (p : LandingPageParams) :
    (generateLandingPage st now prov p).st.geminiRequestQueue =
      (st.geminiRequestQueue.filter (fun ts => now - ts < RATE_LIMIT_WINDOW_MS) ++
        [(generateLandingPage st now prov p).grantTime]).filter
        (fun ts => (generateLandingPage st now prov p).grantTime - ts < RATE_LIMIT_WINDOW_MS) := by
  unfold generateLandingPage saveState
  cases prov with
  | throws => rfl
  | returns h =>
    dsimp only
    split <;> rfl

theorem generate_step_concrete (prov : Provider) (p : LandingPageParams)
    (t : Int) (st : BotState) (hqu : st.geminiRequestQueue = [t]) :
    (generateLandingPage st t prov p).grantTime = t + 1000 ∧
    (generateLandingPage st t prov p).st.geminiRequestQueue = [t + 1000] := by
  have hf : st.geminiRequestQueue.filter
      (fun ts => t - ts < RATE_LIMIT_WINDOW_MS) = [t] := by
    rw [hqu]
    simp [RATE_LIMIT_WINDOW_MS]
  have hg : (generateLandingPage st t prov p).grantTime = t + 1000 := by
    rw [generate_grantTime, hf]
    simp [RATE_LIMIT_WINDOW_MS]
  refine ⟨hg, ?_⟩
  rw [generate_queue, hf, hg]
  simp [RATE_LIMIT_WINDOW_MS]

theorem genSeq_invariant (prov : Provider) (p : LandingPageParams) (i : Nat) :
    (genSeq prov p i).grantTime = (i : Int) * RATE_LIMIT_WINDOW_MS ∧
    (genSeq prov p i).st.geminiRequestQueue = [(i : Int) * RATE_LIMIT_WINDOW_MS] := by
  induction i with
  | zero =>
    have e : genSeq prov p 0 = generateLandingPage (defaultState 0) 0 prov p := rfl
    have hg : (genSeq prov p 0).grantTime = 0 := by
      rw [e, generate_grantTime]
      rfl
    have hq : (genSeq prov p 0).st.geminiRequestQueue = [0] := by
      rw [e, generate_queue]
      have hg' : (generateLandingPage (defaultState 0) 0 prov p).grantTime = 0 := by
        rw [generate_grantTime]
        rfl
      rw [hg']
      rfl
    rw [hg, hq]
    norm_num
  | succ i ih =>
    have e : genSeq prov p (i + 1) =
        generateLandingPage (genSeq prov p i).st (genSeq prov p i).grantTime prov p := rfl
    have hstep := generate_step_concrete prov p ((i : Int) * RATE_LIMIT_WINDOW_MS)
      (genSeq prov p i).st (ih.1 ▸ ih.2)
    rw [ih.1] at e
    constructor
    · rw [e, hstep.1]
      push_cast
      rw [RATE_LIMIT_WINDOW_MS]
      ring
    · rw [e, hstep.2]
      push_cast
      rw [RATE_LIMIT_WINDOW_MS]
      norm_num
      ring

/- ## No apology reply exists anywhere in the pipeline -/

theorem processNotif_no_apology (bot : List Char) (o : StepOracle)
    (st : BotState) (n : Notification) :
    ∀ a ∈ (processNotif bot o st n).2, a.kind ≠ ReplyKind.apology := by
  unfold processNotif
  cases hc : n.cast with
  | none => simp
  | some c =>
    dsimp only
    obtain ⟨stPre, now2, hpre, hcases⟩ := processCast_shape bot o st c
    rcases hcases with ⟨hatt, _⟩ | ⟨kind, hkind, hatt, _⟩ <;> rw [hatt]
    · simp
    · intro a ha
      rw [List.mem_singleton] at ha
      rw [ha]
      exact hkind

theorem runCycle_no_apology (bot : List Char) (os : List StepOracle)
    (st : BotState) (batch : List Notification) :
    ∀ a ∈ (runCycle bot os st batch).2, a.kind ≠ ReplyKind.apology := by
  induction batch generalizing os st with
  | nil => simp [runCycle]
  | cons n rest ih =>
    rw [runCycle_cons]
    intro a ha
    rcases List.mem_append.mp ha with h | h
    · exact processNotif_no_apology bot _ st n a h
    · exact ih os.tail (processNotif bot (os.headD defaultOracle) st n).1 a h

/- ## The fallback template always validates -/

theorem contains_template_shape {s1 x1 s2 x2 s3 x3 s4 x4 s5 tag : List Char}
    (h : containsSub s1 tag = true ∨ containsSub s2 tag = true) :
    containsSub (s1 ++ x1 ++ s2 ++ x2 ++ s3 ++ x3 ++ s4 ++ x4 ++ s5) tag = true := by
  rcases h with h | h
  · exact containsSub_append_left s5 (containsSub_append_left x4
      (containsSub_append_left s4 (containsSub_append_left x3
        (containsSub_append_left s3 (containsSub_append_left x2
          (containsSub_append_left s2 (containsSub_append_left x1 h)))))))
  · exact containsSub_append_left s5 (containsSub_append_left x4
      (containsSub_append_left s4 (containsSub_append_left x3
        (containsSub_append_left s3 (containsSub_append_left x2
          (containsSub_append_right (s1 ++ x1) h))))))

theorem validate_fallback (tp : TemplateParams) :
    validateLandingPage (getFallbackTemplate tp) = true := by
  unfold getFallbackTemplate validateLandingPage requiredTags
  simp only [List.all_cons, List.all_nil, Bool.and_eq_true, Bool.and_true]
  refine ⟨?_, ?_, ?_, ?_, ?_⟩
  · exact contains_template_shape (Or.inl (by decide))
  · exact contains_template_shape (Or.inl (by decide))
  · exact contains_template_shape (Or.inl (by decide))
  · exact contains_template_shape (Or.inr (by decide))
  · exact contains_template_shape (Or.inl (by decide))

/- ## Characters surviving the sanitizer -/

theorem sanitize_chars {s : List Char} {c : Char} (hc : c ∈ sanitizeFilename s) :
    ('a' ≤ c ∧ c ≤ 'z') ∨ ('0' ≤ c ∧ c ≤ '9') ∨ c = '_' ∨ c = '-' := by
  unfold sanitizeFilename at hc
  rw [List.mem_map] at hc
  obtain ⟨c0, hc0, rfl⟩ := hc
  rw [List.mem_map] at hc0
  obtain ⟨c1, _, rfl⟩ := hc0
  by_cases hf : isFnameChar c1
  · rw [if_pos hf]
    rcases hf with h | h | h | h | h
    · have h1 : 97 ≤ c1.toNat := h.1
      have h2 : c1.toNat ≤ 122 := h.2
      rw [toLower_eq_self_of_not_upper (by omega)]
      exact Or.inl h
    · have h1 : 65 ≤ c1.toNat := h.1
      have h2 : c1.toNat ≤ 90 := h.2
      have ht := toLower_toNat_of_upper h1 h2
      left
      constructor
      · show 97 ≤ (Char.toLower c1).toNat
        omega
      · show (Char.toLower c1).toNat ≤ 122
        omega
    · have h1 : 48 ≤ c1.toNat := h.1
      have h2 : c1.toNat ≤ 57 := h.2
      rw [toLower_eq_self_of_not_upper (by omega)]
      exact Or.inr (Or.inl h)
    · subst h
      decide
    · subst h
      decide
  · rw [if_neg hf]
    decide

/- ## Claim theorems -/

/-- Claim C1: for every notification identifier `x`, if `x` appears in the
fetched batches (each of at most the fetch limit of 10 notifications) of two
successive pipeline cycles, at most one reply is ever published for `x`
across the two cycles: once `x` has been recorded in `processedCasts`, the
membership check skips it without dispatching or replying. -/
theorem c1_at_most_once_reply (bot x : List Char) (st : BotState)
    (b1 b2 : List Notification) (os1 os2 : List StepOracle)
    (hb1 : b1.length ≤ 10) (hb2 : b2.length ≤ 10)
    (_hx1 : x ∈ batchHashes b1) (_hx2 : x ∈ batchHashes b2) :
    pubCountFor x ((runCycle bot os1 st b1).2 ++
      (runCycle bot os2 (runCycle bot os1 st b1).1 b2).2) ≤ 1 := by
  rw [pubCountFor_append]
  have hE1 := runCycle_count_le_one bot x b1 os1 st (by omega)
  by_cases h1 : 1 ≤ pubCountFor x (runCycle bot os1 st b1).2
  · obtain ⟨k, hk1, hk2, hkm⟩ := hE1.2 h1
    have hD := runCycle_no_new bot x b2 os2 (runCycle bot os1 st b1).1 k
      (by omega) hkm
    rw [hD.1]
    have := hE1.1
    omega
  · have h0 : pubCountFor x (runCycle bot os1 st b1).2 = 0 := by omega
    have hE2 := runCycle_count_le_one bot x b2 os2 (runCycle bot os1 st b1).1
      (by omega)
    have := hE2.1
    omega

/-- Witness for C1 at a concrete two-cycle run whose batches both carry the
identifier. -/
theorem c1_at_most_once_reply_witness :
    ([(⟨some ⟨"x".data, "@bot help".data⟩⟩ : Notification)].length ≤ 10 ∧
      "x".data ∈ batchHashes [⟨some ⟨"x".data, "@bot help".data⟩⟩]) ∧
    pubCountFor "x".data
      ((runCycle "bot".data [⟨0, PubResult.ok, Provider.throws⟩] (defaultState 0)
          [⟨some ⟨"x".data, "@bot help".data⟩⟩]).2 ++
        (runCycle "bot".data [⟨0, PubResult.ok, Provider.throws⟩]
          (runCycle "bot".data [⟨0, PubResult.ok, Provider.throws⟩] (defaultState 0)
            [⟨some ⟨"x".data, "@bot help".data⟩⟩]).1
          [⟨some ⟨"x".data, "@bot help".data⟩⟩]).2) ≤ 1 :=
  ⟨⟨by decide, by decide⟩,
    c1_at_most_once_reply "bot".data "x".data (defaultState 0)
      [⟨some ⟨"x".data, "@bot help".data⟩⟩] [⟨some ⟨"x".data, "@bot help".data⟩⟩]
      [⟨0, PubResult.ok, Provider.throws⟩] [⟨0, PubResult.ok, Provider.throws⟩]
      (by decide) (by decide) (by decide) (by decide)⟩

/-- Claim C2 counterexample: a notification whose help reply publish throws
(so its handling ends in a caught error) leaves `processedCasts` without the
notification's identifier — the push and `saveState` at lines 313-314 sit
inside the try block and are skipped, contradicting the claim that the
identifier is appended regardless of outcome. -/
theorem c2_counterexample :
    (processNotif "bot".data ⟨0, PubResult.err ErrKind.other, Provider.throws⟩
        (defaultState 0) ⟨some ⟨"h1".data, "@bot help".data⟩⟩).2 =
      [⟨"h1".data, ReplyKind.help, false⟩] ∧
    (processNotif "bot".data ⟨0, PubResult.err ErrKind.other, Provider.throws⟩
        (defaultState 0) ⟨some ⟨"h1".data, "@bot help".data⟩⟩).1.processedCasts = [] := by
  constructor <;> decide

/-- Claim C2 (amended): when handling a dispatched notification completes
without raising (its publish resolved, or its path publishes nothing), the
identifier is appended (becoming the most recent recorded entry of the saved
state) before the next notification; when the handling raises a caught
error, the identifier is NOT appended, so the notification can be
re-processed by a later cycle. -/
theorem c2_amended_append_only_on_success (bot : List Char) (o : StepOracle)
    (st : BotState) (c : Cast) (hne : c.hash ≠ [])
    (hmem : c.hash ∉ st.processedCasts) :
    ((o.pub = PubResult.ok ∨ classify st.maintenanceMode bot c.text = BotAction.skip) →
      c.hash ∈ lastN 1 (processCast bot o st c).1.processedCasts) ∧
    (∀ k, o.pub = PubResult.err k →
      classify st.maintenanceMode bot c.text ≠ BotAction.skip →
      c.hash ∉ (processCast bot o st c).1.processedCasts) := by
  have hcond : ¬ (c.hash = [] ∨ c.hash ∈ st.processedCasts) := by
    rintro (h | h)
    exacts [hne h, hmem h]
  constructor
  · intro hok
    unfold processCast
    rw [if_neg hcond]
    cases hcl : classify st.maintenanceMode bot c.text with
    | skip => exact pushAndSave_self c.hash o.now
    | maint =>
      rcases hok with hok | hok
      · rw [hok]
        exact pushAndSave_self c.hash o.now
      · rw [hcl] at hok
        exact absurd hok (by decide)
    | usage =>
      rcases hok with hok | hok
      · rw [hok]
        exact pushAndSave_self c.hash o.now
      · rw [hcl] at hok
        exact absurd hok (by decide)
    | helpReply =>
      rcases hok with hok | hok
      · rw [hok]
        exact pushAndSave_self c.hash o.now
      · rw [hcl] at hok
        exact absurd hok (by decide)
    | genReq nm ds pp =>
      rcases hok with hok | hok
      · rw [hok]
        exact pushAndSave_self c.hash _
      · rw [hcl] at hok
        exact BotAction.noConfusion hok
  · intro k hk hcls
    unfold processCast
    rw [if_neg hcond]
    cases hcl : classify st.maintenanceMode bot c.text with
    | skip => exact absurd hcl hcls
    | maint =>
      rw [hk]
      exact hmem
    | usage =>
      rw [hk]
      exact hmem
    | helpReply =>
      rw [hk]
      exact hmem
    | genReq nm ds pp =>
      rw [hk]
      intro hin
      exact hmem (trimCasts_subset _
        ((generate_processedCasts st o.now o.prov ⟨nm, ds, pp⟩) ▸ hin))

/-- Witness for the amended C2 at a concrete successful handling. -/
theorem c2_amended_witness :
    "h1".data ∈ lastN 1 (processCast "bot".data ⟨0, PubResult.ok, Provider.throws⟩
      (defaultState 0) ⟨"h1".data, "@bot help".data⟩).1.processedCasts :=
  (c2_amended_append_only_on_success "bot".data ⟨0, PubResult.ok, Provider.throws⟩
    (defaultState 0) ⟨"h1".data, "@bot help".data⟩ (by decide) (by decide)).1
    (Or.inl rfl)

/-- Claim C9 counterexample: a generation request whose provider call raised
a rate-limit error (swallowed inside `generateLandingPage`, which returns the
fallback) and whose link-reply publish then also threw a rate-limit error
produces exactly one attempted reply — the normal link reply — and no
apology attempt of any kind: the catch at lines 315-317 only logs. -/
theorem c9_counterexample :
    (processNotif "bot".data ⟨0, PubResult.err ErrKind.rateLimit, Provider.throws⟩
        (defaultState 0) ⟨some ⟨"h2".data, "@bot landing a | b | c".data⟩⟩).2 =
      [⟨"h2".data, ReplyKind.success, false⟩] := by
  decide

/-- Claim C9 (amended): a caught per-notification error (of any kind,
rate-limit included) is only logged; no apology reply is ever attempted
anywhere in a cycle, and processing always continues with the rest of the
batch (the cycle decomposes notification by notification, never aborting). -/
theorem c9_amended_log_and_continue (bot : List Char) (os : List StepOracle)
    (st : BotState) (batch : List Notification) :
    (∀ a ∈ (runCycle bot os st batch).2, a.kind ≠ ReplyKind.apology) ∧
    (∀ n rest, batch = n :: rest →
      runCycle bot os st batch =
        ((runCycle bot os.tail (processNotif bot (os.headD defaultOracle) st n).1 rest).1,
          (processNotif bot (os.headD defaultOracle) st n).2 ++
            (runCycle bot os.tail (processNotif bot (os.headD defaultOracle) st n).1 rest).2)) := by
  refine ⟨runCycle_no_apology bot os st batch, ?_⟩
  rintro n rest rfl
  exact runCycle_cons bot os st n rest

/-- Witness for the amended C9 at the rate-limited concrete run. -/
theorem c9_amended_witness :
    (⟨"h2".data, ReplyKind.success, false⟩ : Attempt).kind ≠ ReplyKind.apology ∧
    runCycle "bot".data [⟨0, PubResult.err ErrKind.rateLimit, Provider.throws⟩]
        (defaultState 0) [⟨some ⟨"h2".data, "@bot landing a | b | c".data⟩⟩] =
      ((runCycle "bot".data [] (processNotif "bot".data
          ⟨0, PubResult.err ErrKind.rateLimit, Provider.throws⟩ (defaultState 0)
          ⟨some ⟨"h2".data, "@bot landing a | b | c".data⟩⟩).1 []).1,
        (processNotif "bot".data ⟨0, PubResult.err ErrKind.rateLimit, Provider.throws⟩
          (defaultState 0) ⟨some ⟨"h2".data, "@bot landing a | b | c".data⟩⟩).2 ++
          (runCycle "bot".data [] (processNotif "bot".data
            ⟨0, PubResult.err ErrKind.rateLimit, Provider.throws⟩ (defaultState 0)
            ⟨some ⟨"h2".data, "@bot landing a | b | c".data⟩⟩).1 []).2) :=
  ⟨(c9_amended_log_and_continue "bot".data
      [⟨0, PubResult.err ErrKind.rateLimit, Provider.throws⟩] (defaultState 0)
      [⟨some ⟨"h2".data, "@bot landing a | b | c".data⟩⟩]).1 _ (by decide),
    (c9_amended_log_and_continue "bot".data
      [⟨0, PubResult.err ErrKind.rateLimit, Provider.throws⟩] (defaultState 0)
      [⟨some ⟨"h2".data, "@bot landing a | b | c".data⟩⟩]).2 _ _ rfl⟩

/-- Claim C3: for every input triple and every provider behavior (throwing —
which includes timeouts and rate limits — or returning any text, empty or
missing markers), `generateLandingPage` returns (never raises: it is total
and returns a plain string) a document passing `validateLandingPage`; and
`getFallbackTemplate` passes the validator for every choice of possibly
missing or blank parameters. -/
theorem c3_fallback_guarantee (st : BotState) (now : Int) (prov : Provider)
    (p : LandingPageParams) (tp : TemplateParams) :
    validateLandingPage (generateLandingPage st now prov p).html = true ∧
    validateLandingPage (getFallbackTemplate tp) = true := by
  refine ⟨?_, validate_fallback tp⟩
  unfold generateLandingPage
  cases prov with
  | throws => exact validate_fallback _
  | returns h =>
    dsimp only
    split
    · next hv => exact hv
    · exact validate_fallback _

/-- Claim C4 counterexample: the claim's marker set (document-type
declaration, opening and closing document tag, head and body) accepts this
string, but the code's validator rejects it — the code checks a title marker
instead of the closing document tag (`requiredTags` has `<title` and no
`</html>`). -/
theorem c4_counterexample :
    claimValidate "<!DOCTYPE html><html></html><head><body>".data = true ∧
    validateLandingPage "<!DOCTYPE html><html></html><head><body>".data = false := by
  constructor <;> decide

/-- Claim C4 (amended): the validator accepts a string exactly when it
contains all five of: the document-type declaration, the opening document
tag, the head marker, the body marker, and the title marker; the closing
document tag is not checked.  Any string missing one of these five is
rejected. -/
theorem c4_amended_marker_set (s : List Char) :
    validateLandingPage s = true ↔
      (containsSub s "<!DOCTYPE html>".data = true ∧
        containsSub s "<html".data = true ∧
        containsSub s "<head".data = true ∧
        containsSub s "<body".data = true ∧
        containsSub s "<title".data = true) := by
  unfold validateLandingPage requiredTags
  simp [List.all_cons, List.all_nil, Bool.and_eq_true]

/-- Claim C5 counterexample: `"@bot landing a | | b"` splits into the three
parts `["a", "", "b"]`, only two of which are non-empty; the claim says this
is malformed, but the code only counts parts (`parts.length < 3`), so it
classifies the command as a generate request with an empty description. -/
theorem c5_counterexample :
    handleLandingAction false "bot".data "@bot landing a | | b".data =
      BotAction.genReq "a".data [] "b".data ∧
    ((landingParts "bot".data "@bot landing a | | b".data).filter
      (fun q => !q.isEmpty)).length < 3 := by
  constructor <;> decide

/-- Claim C5 (amended): with maintenance mode off, a landing command that
splits into fewer than 3 parts — parts counted whether empty or not — is
classified as malformed, and the pipeline then attempts exactly the
usage/format reply; otherwise exactly the first three parts (which may be
empty) become name, description and purpose, extra parts ignored without
error. -/
theorem c5_amended_parse (bot text : List Char) :
    ((landingParts bot text).length < 3 →
      handleLandingAction false bot text = BotAction.usage) ∧
    (∀ a b c rest, landingParts bot text = a :: b :: c :: rest →
      handleLandingAction false bot text = BotAction.genReq a b c) ∧
    (∀ o st cst, st.maintenanceMode = false → cst.hash ≠ [] →
      cst.hash ∉ st.processedCasts → cst.text = text →
      "landing".data.isPrefixOf (cleanText bot text) = true →
      (landingParts bot text).length < 3 →
      (processCast bot o st cst).2 = [⟨cst.hash, ReplyKind.usage, isSent o.pub⟩]) := by
  have hfalse : ∀ a : BotAction, (if (false : Bool) = true then BotAction.maint else a) = a :=
    fun a => by simp
  have hi : (landingParts bot text).length < 3 →
      handleLandingAction false bot text = BotAction.usage := by
    intro h
    unfold handleLandingAction
    rw [hfalse]
    cases hp : landingParts bot text with
    | nil => rfl
    | cons a t1 =>
      cases t1 with
      | nil => rfl
      | cons b t2 =>
        cases t2 with
        | nil => rfl
        | cons cc t3 =>
          exfalso
          rw [hp] at h
          simp only [List.length_cons] at h
          omega
  have hii : ∀ a b c rest, landingParts bot text = a :: b :: c :: rest →
      handleLandingAction false bot text = BotAction.genReq a b c := by
    intro a b c rest hp
    unfold handleLandingAction
    rw [hfalse, hp]
  refine ⟨hi, hii, ?_⟩
  intro o st cst hm hne hmem htext hpre hlen
  have hcond : ¬ (cst.hash = [] ∨ cst.hash ∈ st.processedCasts) := by
    rintro (h | h)
    exacts [hne h, hmem h]
  have hcl : classify st.maintenanceMode bot cst.text = BotAction.usage := by
    unfold classify
    rw [htext, hm]
    dsimp only
    rw [if_pos hpre]
    exact hi hlen
  unfold processCast
  rw [if_neg hcond, hcl]
  exact pubOutcome_snd st cst.hash o.now o.pub ReplyKind.usage

/-- Witness for the amended C5: a malformed landing command (one part)
yields exactly the usage-reply attempt. -/
theorem c5_amended_witness :
    (processCast "bot".data ⟨0, PubResult.ok, Provider.throws⟩ (defaultState 0)
        ⟨"h3".data, "@bot landing x".data⟩).2 =
      [⟨"h3".data, ReplyKind.usage, isSent PubResult.ok⟩] :=
  (c5_amended_parse "bot".data "@bot landing x".data).2.2
    ⟨0, PubResult.ok, Provider.throws⟩ (defaultState 0)
    ⟨"h3".data, "@bot landing x".data⟩ rfl (by decide) (by decide) rfl
    (by decide) (by decide)

/-- Claim C6: with quota 1 and window W, when the purged queue is non-empty
the generator is granted exactly at `now + (W - (now - oldest))` (it waits
exactly `delay = W - (now - oldest)`), the grant timestamp is appended to the
queue (and survives the immediate save-purge); consequently, for requests
served sequentially from time 0, request `i` (0-indexed) is granted exactly
at `i * W` — in particular no earlier than `i * W`. -/
theorem c6_rate_limit (st : BotState) (now : Int) (prov : Provider)
    (p : LandingPageParams) (t0 : Int) (rest : List Int)
    (hq : st.geminiRequestQueue.filter
      (fun ts => now - ts < RATE_LIMIT_WINDOW_MS) = t0 :: rest) :
    ((generateLandingPage st now prov p).grantTime =
        now + (RATE_LIMIT_WINDOW_MS - (now - t0)) ∧
      (generateLandingPage st now prov p).grantTime ∈
        (generateLandingPage st now prov p).st.geminiRequestQueue) ∧
    (∀ i : Nat,
      (i : Int) * RATE_LIMIT_WINDOW_MS ≤ (genSeq prov p i).grantTime ∧
      (genSeq prov p i).grantTime = (i : Int) * RATE_LIMIT_WINDOW_MS) := by
  constructor
  · constructor
    · rw [generate_grantTime, hq]
    · rw [generate_queue]
      rw [List.mem_filter]
      refine ⟨List.mem_append_right _ (List.mem_singleton_self _), ?_⟩
      simp [RATE_LIMIT_WINDOW_MS]
  · intro i
    exact ⟨le_of_eq (genSeq_invariant prov p i).1.symm, (genSeq_invariant prov p i).1⟩

/-- Witness for C6: a queue holding one granted timestamp 0, re-entered at
time 500, is granted exactly at 1000. -/
theorem c6_rate_limit_witness :
    (({ defaultState 0 with geminiRequestQueue := [0] } : BotState).geminiRequestQueue.filter
        (fun ts => (500 : Int) - ts < RATE_LIMIT_WINDOW_MS) = [(0 : Int)]) ∧
    (generateLandingPage { defaultState 0 with geminiRequestQueue := [0] } 500
        Provider.throws ⟨"a".data, "b".data, "c".data⟩).grantTime =
      500 + (RATE_LIMIT_WINDOW_MS - (500 - 0)) :=
  ⟨by decide,
    ((c6_rate_limit { defaultState 0 with geminiRequestQueue := [0] } 500
      Provider.throws ⟨"a".data, "b".data, "c".data⟩ 0 [] (by decide)).1).1⟩

/-- Claim C7: after every `saveState`, `processedCasts` has at most 1000
entries and is a suffix of the previous sequence (the most recent entries
are kept, the oldest discarded first), and every timestamp kept in
`geminiRequestQueue` comes from the previous queue and lies strictly within
the window `W` before the save time. -/
theorem c7_state_bounding (st : BotState) (now : Int) :
    (saveState st now).processedCasts.length ≤ 1000 ∧
    (saveState st now).processedCasts <:+ st.processedCasts ∧
    ∀ ts ∈ (saveState st now).geminiRequestQueue,
      ts ∈ st.geminiRequestQueue ∧ now - ts < RATE_LIMIT_WINDOW_MS := by
  refine ⟨trimCasts_length _, trimCasts_suffix _, ?_⟩
  intro ts hts
  unfold saveState at hts
  dsimp only at hts
  rw [List.mem_filter] at hts
  exact ⟨hts.1, of_decide_eq_true hts.2⟩

/-- Witness for C7 at a concrete state and save time. -/
theorem c7_state_bounding_witness :
    (3 : Int) ∈ (saveState { defaultState 0 with geminiRequestQueue := [3] } 5).geminiRequestQueue ∧
    ((3 : Int) ∈ ({ defaultState 0 with geminiRequestQueue := [3] } : BotState).geminiRequestQueue ∧
      (5 : Int) - 3 < RATE_LIMIT_WINDOW_MS) :=
  ⟨by decide,
    (c7_state_bounding { defaultState 0 with geminiRequestQueue := [3] } 5).2.2 3 (by decide)⟩

/-- Claim C8: `loadState` is total (never propagates an error — every file
condition returns a well-formed `BotState`): an absent or unparseable file
yields the default state, and on a parsed file each sequence field that is
missing or not an array is replaced by the empty default while an actual
array is kept as-is. -/
theorem c8_load_never_fails (now : Int) :
    loadState StateFile.absent now = defaultState now ∧
    loadState StateFile.corrupt now = defaultState now ∧
    ∀ p : ParsedState,
      ((p.processedCasts = JsonArr.missingField ∨ p.processedCasts = JsonArr.nonArray) →
        (loadState (StateFile.parsed p) now).processedCasts = []) ∧
      ((p.geminiRequestQueue = JsonArr.missingField ∨ p.geminiRequestQueue = JsonArr.nonArray) →
        (loadState (StateFile.parsed p) now).geminiRequestQueue = []) ∧
      (∀ xs, p.processedCasts = JsonArr.arr xs →
        (loadState (StateFile.parsed p) now).processedCasts = xs) ∧
      (∀ ys, p.geminiRequestQueue = JsonArr.arr ys →
        (loadState (StateFile.parsed p) now).geminiRequestQueue = ys) := by
  refine ⟨rfl, rfl, ?_⟩
  intro p
  refine ⟨?_, ?_, ?_, ?_⟩
  · rintro (h | h) <;> simp [loadState, h]
  · rintro (h | h) <;> simp [loadState, h]
  · intro xs h
    simp [loadState, h]
  · intro ys h
    simp [loadState, h]

/-- Witness for C8: an absent file and a schema-mismatched file both load. -/
theorem c8_load_never_fails_witness :
    loadState StateFile.absent 7 = defaultState 7 ∧
    (loadState (StateFile.parsed
      ⟨JsonArr.nonArray, JsonArr.nonArray, none, none, none⟩) 7).processedCasts = [] :=
  ⟨(c8_load_never_fails 7).1,
    ((c8_load_never_fails 7).2.2 ⟨JsonArr.nonArray, JsonArr.nonArray, none, none, none⟩).1
      (Or.inr rfl)⟩

/-- Claim C10: every character of `sanitizeFilename`'s output is in
`[a-z0-9_-]`; on the generated artifact filename the dot of `.html` becomes
an underscore, so no stored artifact filename contains a dot or an
extension; and the URL returned by `saveLandingPage` ends in exactly that
dotless filename segment. -/
theorem c10_sanitized_filenames :
    (∀ s : List Char, ∀ c ∈ sanitizeFilename s,
      ('a' ≤ c ∧ c ≤ 'z') ∨ ('0' ≤ c ∧ c ≤ '9') ∨ c = '_' ∨ c = '-') ∧
    saveLandingFilename 123 1700000000000 = "landing_123_1700000000000_html".data ∧
    (∀ fid t : Nat, '.' ∉ saveLandingFilename fid t) ∧
    (∀ domain : List Char, ∀ fid t : Nat,
      saveLandingUrl domain fid t =
        cleanDomain domain ++ "/landing-pages/".data ++ saveLandingFilename fid t) := by
  refine ⟨fun s c hc => sanitize_chars hc, by decide, ?_, fun _ _ _ => rfl⟩
  intro fid t hdot
  rcases sanitize_chars hdot with h | h | h | h
  · exact absurd h.1 (by decide)
  · exact absurd h.1 (by decide)
  · exact absurd h (by decide)
  · exact absurd h (by decide)

/-- Witness for C10's character-class conjunct at a concrete input. -/
theorem c10_sanitized_filenames_witness :
    ('a' ≤ 'a' ∧ 'a' ≤ 'z') ∨ ('0' ≤ 'a' ∧ 'a' ≤ '9') ∨ 'a' = '_' ∨ 'a' = '-' :=
  c10_sanitized_filenames.1 "A.b".data 'a' (by decide)
